import Mathlib

/-!
Verification of the drift-diffusion model (DDM) simulator in `ddm_web.py`.

The simulator keeps its state in `st.session_state` (time, evidence, the two
parallel history lists, the `decision_made` and `running` flags) and advances it
with `DDMSimulator.update_simulation`, which processes up to 5 Euler–Maruyama
steps per invocation, breaking out of the batch as soon as the evidence crosses
the symmetric decision boundary.

The embedding below models the numeric state over `ℚ`.  The square root used to
scale the noise (`np.sqrt(dt)`) is abstracted as a function parameter
`sq : ℚ → ℚ`; every theorem is quantified over `sq`, so each holds in
particular for the interpretation of `sq` as the real square root.  The
standard-normal draws of `np.random.normal()` are supplied as explicit rational
inputs, which models the "fixed injected noise sequence" view of the spec.
-/

namespace DDM

/-- Which boundary a decision crossed, per the string computed at the decision
check (`"Upper"` / `"Lower"`). `none` in the state means no decision yet. -/
inductive Boundary where
  | Upper
  | Lower
deriving DecidableEq, Repr

/-- Parameters gathered by `DDMSimulator.setup_params` into `self.params`:
`drift_rate`, `threshold`, `bias`, `noise_sd` from the sliders and the fixed
`dt = 0.05`. -/
structure Params where
  drift_rate : ℚ
  threshold : ℚ
  bias : ℚ
  noise_sd : ℚ
  dt : ℚ
deriving DecidableEq, Repr

/-- The mutable session state of the simulator: `st.session_state.time`,
`.evidence`, `.evidence_history`, `.time_history`, `.decision_made`,
`.running`.  The last two fields record the decision metadata that the code
computes at the moment of the decision check (the boundary string it displays
and the time at which it reports the decision); the spec's `TrialState` carries
them as `decisionBoundary` and `decisionTime`. -/
structure SimState where
  time : ℚ
  evidence : ℚ
  evidence_history : List ℚ
  time_history : List ℚ
  decision_made : Bool
  running : Bool
  decision_boundary : Option Boundary
  decision_time : Option ℚ
deriving DecidableEq, Repr

/-- The initial session state (lines 60–66 of `ddm_web.py`): `time = 0`,
`evidence = bias`, `evidence_history = [bias]`, `time_history = [0]`,
`decision_made = false`, `running = false`. -/
def initState (p : Params) : SimState :=
  { time := 0
    evidence := p.bias
    evidence_history := [p.bias]
    time_history := [0]
    decision_made := false
    running := false
    decision_boundary := none
    decision_time := none }

/-- The evidence value one loop iteration computes:
`new_evidence = evidence + (drift_rate * dt + noise_sd * sqrt(dt) * normal())`,
with the normal draw `ν` and the square-root function `sq` supplied
explicitly. -/
def stepEvidence (sq : ℚ → ℚ) (p : Params) (ν : ℚ) (s : SimState) : ℚ :=
  s.evidence + (p.drift_rate * p.dt + p.noise_sd * sq p.dt * ν)

/-- One iteration of the inner `for _ in range(5)` loop of
`update_simulation`: compute the noise and the new evidence, advance `time` by
`dt`, append to both history lists, then run the decision check
`abs(new_evidence) >= threshold`, which sets `decision_made` and produces the
boundary label and the reported decision time. -/
def ddmStep (sq : ℚ → ℚ) (p : Params) (ν : ℚ) (s : SimState) : SimState :=
  let new_evidence := stepEvidence sq p ν s
  let new_time := s.time + p.dt
  if p.threshold ≤ |new_evidence| then
    { time := new_time
      evidence := new_evidence
      evidence_history := s.evidence_history ++ [new_evidence]
      time_history := s.time_history ++ [new_time]
      decision_made := true
      running := s.running
      decision_boundary :=
        some (if p.threshold ≤ new_evidence then Boundary.Upper else Boundary.Lower)
      decision_time := some new_time }
  else
    { s with
      time := new_time
      evidence := new_evidence
      evidence_history := s.evidence_history ++ [new_evidence]
      time_history := s.time_history ++ [new_time] }

/-- The inner loop of `update_simulation` over the list of noise draws of the
batch, with the `break` taken exactly when the freshly computed evidence
satisfies `abs(new_evidence) >= threshold`. -/
def stepLoop (sq : ℚ → ℚ) (p : Params) : List ℚ → SimState → SimState
  | [], s => s
  | ν :: rest, s =>
    let s' := ddmStep sq p ν s
    if p.threshold ≤ |s'.evidence| then s' else stepLoop sq p rest s'

/-- How many loop iterations the batch actually executes before the `break`
(or before the draws run out). -/
def stepLoopCount (sq : ℚ → ℚ) (p : Params) : List ℚ → SimState → ℕ
  | [], _ => 0
  | ν :: rest, s =>
    let s' := ddmStep sq p ν s
    if p.threshold ≤ |s'.evidence| then 1 else 1 + stepLoopCount sq p rest s'

/-- `DDMSimulator.update_simulation`: guarded by
`if not st.session_state.decision_made and st.session_state.running`, it runs
the batch loop; the source fixes the batch at 5 draws (`range(5)`), which the
theorems impose through `draws.length = 5`. -/
def update_simulation (sq : ℚ → ℚ) (p : Params) (draws : List ℚ) (s : SimState) : SimState :=
  if s.decision_made = false ∧ s.running = true then stepLoop sq p draws s else s

/-- Number of steps one call to `update_simulation` executes: zero when the
guard fails, otherwise the number of loop iterations before the `break`. -/
def updateCount (sq : ℚ → ℚ) (p : Params) (draws : List ℚ) (s : SimState) : ℕ :=
  if s.decision_made = false ∧ s.running = true then stepLoopCount sq p draws s else 0

/-- The ways the surrounding app mutates the session state between frames:
an `update_simulation` call (with its batch of noise draws), a write to the
`running` flag (the Start/Pause button and the stop-on-decision in `main`),
and the Reset button, which restores exactly the initial state
(lines 142–148). -/
inductive Action where
  | update (draws : List ℚ)
  | setRunning (b : Bool)
  | reset

/-- Apply one action to a (state, steps-taken-so-far) pair; `reset` starts a
fresh trial, so the step counter restarts at zero. -/
def applyAction (sq : ℚ → ℚ) (p : Params) : SimState × ℕ → Action → SimState × ℕ
  | (s, n), Action.update draws =>
      (update_simulation sq p draws s, n + updateCount sq p draws s)
  | (s, n), Action.setRunning b => ({ s with running := b }, n)
  | _, Action.reset => (initState p, 0)

/-- Run a sequence of app actions from the initial state, tracking the number
of simulation steps taken since the last reset. -/
def runTrace (sq : ℚ → ℚ) (p : Params) (acts : List Action) : SimState × ℕ :=
  acts.foldl (applyAction sq p) (initState p, 0)

/-- The session states reachable from the initial state by the app's
operations. -/
inductive Reachable (sq : ℚ → ℚ) (p : Params) : SimState → Prop where
  | init : Reachable sq p (initState p)
  | update (draws : List ℚ) {s : SimState} :
      Reachable sq p s → Reachable sq p (update_simulation sq p draws s)
  | setRunning (b : Bool) {s : SimState} :
      Reachable sq p s → Reachable sq p { s with running := b }
  | reset {s : SimState} : Reachable sq p s → Reachable sq p (initState p)

/-- Modelled from the spec: the repository's batch-mode variant
(`runToCompletion`, §4.1 of the spec) is not among the files under `src/`
(only the live variant `ddm_web.py` is), so its loop is modelled from the
spec's words: "Repeatedly invokes `step` starting from an initial state until
either `decided` becomes true or `currentTime >= maxTime`."  The fuel argument
only bounds the recursion; `runToCompletion` supplies enough fuel that the
loop always reaches the spec's stopping condition. -/
def runLoop (sq : ℚ → ℚ) (p : Params) (noise : ℕ → ℚ) (maxTime : ℚ) :
    ℕ → SimState → SimState
  | 0, s => s
  | fuel + 1, s =>
    if s.decision_made = true ∨ maxTime ≤ s.time then s
    else runLoop sq p (fun n => noise (n + 1)) maxTime fuel (ddmStep sq p (noise 0) s)

/-- Modelled from the spec: batch mode runs the step loop from the initial
state (`currentEvidence = startingBias`, `currentTime = 0`,
`history = [(0, startingBias)]`) until a decision or until
`currentTime >= maxTime`.  The fuel `⌈maxTime / dt⌉ + 1` exceeds the number of
steps the time cutoff permits whenever `dt > 0`. -/
def runToCompletion (sq : ℚ → ℚ) (p : Params) (noise : ℕ → ℚ) (maxTime : ℚ) : SimState :=
  runLoop sq p noise maxTime (⌈maxTime / p.dt⌉.toNat + 1) (initState p)

/-- Value returned by a `st.slider(label, lo, hi, default)` widget: whatever
the user selects, clamped into the widget's range `[lo, hi]`. -/
def sliderVal (lo hi x : ℚ) : ℚ := max lo (min hi x)

/-- `DDMSimulator.setup_params` (lines 18–28): builds `self.params` from the
four sliders — drift rate in `[-3, 3]`, threshold in `[0.5, 5]`, bias in
`[-2, 2]`, noise in `[0.1, 3]` — and the constant `dt = 0.05`.  It performs no
validation and cannot fail; the arguments are the users' slider selections. -/
def setup_params (drift thr b noise : ℚ) : Params :=
  { drift_rate := sliderVal (-3) 3 drift
    threshold := sliderVal (1/2) 5 thr
    bias := sliderVal (-2) 2 b
    noise_sd := sliderVal (1/10) 3 noise
    dt := 1/20 }

/-! ### Field-level facts about one step -/

theorem ddmStep_evidence (sq : ℚ → ℚ) (p : Params) (ν : ℚ) (s : SimState) :
    (ddmStep sq p ν s).evidence = stepEvidence sq p ν s := by
  by_cases h : p.threshold ≤ |stepEvidence sq p ν s| <;> simp [ddmStep, h]

theorem ddmStep_time (sq : ℚ → ℚ) (p : Params) (ν : ℚ) (s : SimState) :
    (ddmStep sq p ν s).time = s.time + p.dt := by
  by_cases h : p.threshold ≤ |stepEvidence sq p ν s| <;> simp [ddmStep, h]

theorem ddmStep_evidence_history (sq : ℚ → ℚ) (p : Params) (ν : ℚ) (s : SimState) :
    (ddmStep sq p ν s).evidence_history =
      s.evidence_history ++ [stepEvidence sq p ν s] := by
  by_cases h : p.threshold ≤ |stepEvidence sq p ν s| <;> simp [ddmStep, h]

theorem ddmStep_time_history (sq : ℚ → ℚ) (p : Params) (ν : ℚ) (s : SimState) :
    (ddmStep sq p ν s).time_history = s.time_history ++ [s.time + p.dt] := by
  by_cases h : p.threshold ≤ |stepEvidence sq p ν s| <;> simp [ddmStep, h]

theorem ddmStep_decision_made (sq : ℚ → ℚ) (p : Params) (ν : ℚ) (s : SimState) :
    (ddmStep sq p ν s).decision_made =
      if p.threshold ≤ |stepEvidence sq p ν s| then true else s.decision_made := by
  by_cases h : p.threshold ≤ |stepEvidence sq p ν s| <;> simp [ddmStep, h]

theorem ddmStep_decision_made_of_cross (sq : ℚ → ℚ) (p : Params) (ν : ℚ) (s : SimState)
    (h : p.threshold ≤ |stepEvidence sq p ν s|) :
    (ddmStep sq p ν s).decision_made = true := by
  rw [ddmStep_decision_made, if_pos h]

theorem ddmStep_decision_made_of_no_cross (sq : ℚ → ℚ) (p : Params) (ν : ℚ) (s : SimState)
    (h : ¬ p.threshold ≤ |stepEvidence sq p ν s|) :
    (ddmStep sq p ν s).decision_made = s.decision_made := by
  rw [ddmStep_decision_made, if_neg h]

/-! ### C1: the per-step update rule -/

/-- C1: on an undecided state, one step of the simulation adds
`delta = driftRate * timeStep + noiseScale * sqrt(timeStep) * noise` to the
evidence, advances the time by `timeStep`, and appends the new evidence and
the new time to the respective histories (the pair `(newTime, newEvidence)` in
the spec's fused history).  `sq` is the square-root function, so the scaled
noise term is exactly `noiseScale * sqrt(timeStep) * noise`. -/
theorem step_update_exact (sq : ℚ → ℚ) (p : Params) (ν : ℚ) (s : SimState)
    (h : s.decision_made = false) :
    (ddmStep sq p ν s).evidence
        = s.evidence + (p.drift_rate * p.dt + p.noise_sd * sq p.dt * ν) ∧
    (ddmStep sq p ν s).time = s.time + p.dt ∧
    (ddmStep sq p ν s).evidence_history
        = s.evidence_history ++ [s.evidence + (p.drift_rate * p.dt + p.noise_sd * sq p.dt * ν)] ∧
    (ddmStep sq p ν s).time_history = s.time_history ++ [s.time + p.dt] :=
  ⟨ddmStep_evidence sq p ν s, ddmStep_time sq p ν s,
   ddmStep_evidence_history sq p ν s, ddmStep_time_history sq p ν s⟩

/-- Square-root stand-in used by the concrete witnesses; all of them run with
zero noise scale or zero draws, so its values never matter. -/
def sq0 : ℚ → ℚ := fun _ => 0

/-- Witness parameters for the per-step claims: the UI defaults
(drift 1.5, threshold 2, bias 0, noise 1, dt 0.05). -/
def wP : Params := ⟨3/2, 2, 0, 1, 1/20⟩

theorem step_update_exact_witness :
    (initState wP).decision_made = false ∧
    ((ddmStep sq0 wP 1 (initState wP)).evidence
        = (initState wP).evidence + (wP.drift_rate * wP.dt + wP.noise_sd * sq0 wP.dt * 1) ∧
    (ddmStep sq0 wP 1 (initState wP)).time = (initState wP).time + wP.dt ∧
    (ddmStep sq0 wP 1 (initState wP)).evidence_history
        = (initState wP).evidence_history
            ++ [(initState wP).evidence + (wP.drift_rate * wP.dt + wP.noise_sd * sq0 wP.dt * 1)] ∧
    (ddmStep sq0 wP 1 (initState wP)).time_history
        = (initState wP).time_history ++ [(initState wP).time + wP.dt]) :=
  ⟨rfl, step_update_exact sq0 wP 1 (initState wP) rfl⟩

/-! ### C2: the decision check, including the tie at `+threshold` -/

/-- C2: whenever the step's resulting evidence satisfies
`abs(newEvidence) >= threshold`, the step sets `decided`, records the new
current time as the decision time, and classifies the boundary as Upper
exactly when `newEvidence >= threshold` (so a value exactly equal to
`+threshold` classifies Upper) and as Lower otherwise. -/
theorem decision_check_correct (sq : ℚ → ℚ) (p : Params) (ν : ℚ) (s : SimState)
    (h : p.threshold ≤ |stepEvidence sq p ν s|) :
    (ddmStep sq p ν s).decision_made = true ∧
    (ddmStep sq p ν s).decision_time = some (s.time + p.dt) ∧
    (p.threshold ≤ stepEvidence sq p ν s →
      (ddmStep sq p ν s).decision_boundary = some Boundary.Upper) ∧
    (stepEvidence sq p ν s < p.threshold →
      (ddmStep sq p ν s).decision_boundary = some Boundary.Lower) := by
  unfold ddmStep
  rw [if_pos h]
  refine ⟨rfl, rfl, fun h2 => ?_, fun h2 => ?_⟩
  · simp only [if_pos h2]
  · simp only [if_neg (not_le.mpr h2)]

/-- Tie-case parameters: drift 1, threshold 0.05, bias 0, zero noise,
dt 0.05; the first noise-free step lands exactly on `+threshold`. -/
def pTie : Params := ⟨1, 1/20, 0, 0, 1/20⟩

theorem decision_check_tie_witness :
    pTie.threshold ≤ |stepEvidence sq0 pTie 0 (initState pTie)| ∧
    stepEvidence sq0 pTie 0 (initState pTie) = pTie.threshold ∧
    (ddmStep sq0 pTie 0 (initState pTie)).decision_made = true ∧
    (ddmStep sq0 pTie 0 (initState pTie)).decision_time
      = some ((initState pTie).time + pTie.dt) ∧
    (ddmStep sq0 pTie 0 (initState pTie)).decision_boundary = some Boundary.Upper := by
  have hev : stepEvidence sq0 pTie 0 (initState pTie) = pTie.threshold := by
    norm_num [stepEvidence, initState, pTie, sq0]
  have h : pTie.threshold ≤ |stepEvidence sq0 pTie 0 (initState pTie)| := by
    rw [hev, abs_of_nonneg (by norm_num [pTie])]
  obtain ⟨h1, h2, h3, _⟩ := decision_check_correct sq0 pTie 0 (initState pTie) h
  exact ⟨h, hev, h1, h2, h3 (le_of_eq hev.symm)⟩

/-! ### C10: the guard makes the update a no-op when paused or decided -/

theorem update_simulation_noop (sq : ℚ → ℚ) (p : Params) (draws : List ℚ)
    (s : SimState) (h : s.running = false ∨ s.decision_made = true) :
    update_simulation sq p draws s = s := by
  unfold update_simulation
  rw [if_neg]
  rintro ⟨h1, h2⟩
  rcases h with h | h
  · rw [h] at h2
    simp at h2
  · rw [h] at h1
    simp at h1

/-- C10: when the state is not running or already decided, one call of
`update_simulation` returns the state unchanged — time, evidence, both
histories, the decided flag and the running flag are all untouched. -/
theorem update_noop_paused_or_decided (sq : ℚ → ℚ) (p : Params) (draws : List ℚ)
    (s : SimState) (h : s.running = false ∨ s.decision_made = true) :
    update_simulation sq p draws s = s :=
  update_simulation_noop sq p draws s h

theorem update_noop_witness :
    ((initState wP).running = false ∨ (initState wP).decision_made = true) ∧
    update_simulation sq0 wP [1, -1, 2] (initState wP) = initState wP :=
  ⟨Or.inl rfl,
   update_noop_paused_or_decided sq0 wP [1, -1, 2] (initState wP) (Or.inl rfl)⟩

/-! ### Facts about the batch loop -/

theorem stepLoop_length (sq : ℚ → ℚ) (p : Params) :
    ∀ (draws : List ℚ) (s : SimState),
      (stepLoop sq p draws s).evidence_history.length
        = s.evidence_history.length + stepLoopCount sq p draws s
  | [], s => by simp [stepLoop, stepLoopCount]
  | ν :: rest, s => by
    by_cases h : p.threshold ≤ |(ddmStep sq p ν s).evidence|
    · simp [stepLoop, stepLoopCount, h, ddmStep_evidence_history]
    · simp only [stepLoop, stepLoopCount, if_neg h]
      rw [stepLoop_length sq p rest (ddmStep sq p ν s), ddmStep_evidence_history]
      simp [Nat.add_assoc, Nat.add_comm 1]

theorem stepLoop_time_length (sq : ℚ → ℚ) (p : Params) :
    ∀ (draws : List ℚ) (s : SimState),
      (stepLoop sq p draws s).time_history.length
        = s.time_history.length + stepLoopCount sq p draws s
  | [], s => by simp [stepLoop, stepLoopCount]
  | ν :: rest, s => by
    by_cases h : p.threshold ≤ |(ddmStep sq p ν s).evidence|
    · simp [stepLoop, stepLoopCount, h, ddmStep_time_history]
    · simp only [stepLoop, stepLoopCount, if_neg h]
      rw [stepLoop_time_length sq p rest (ddmStep sq p ν s), ddmStep_time_history]
      simp [Nat.add_assoc, Nat.add_comm 1]

theorem stepLoopCount_le (sq : ℚ → ℚ) (p : Params) :
    ∀ (draws : List ℚ) (s : SimState), stepLoopCount sq p draws s ≤ draws.length
  | [], s => by simp [stepLoopCount]
  | ν :: rest, s => by
    by_cases h : p.threshold ≤ |(ddmStep sq p ν s).evidence|
    · simp [stepLoopCount, h]
    · simp only [stepLoopCount, if_neg h, List.length_cons]
      have := stepLoopCount_le sq p rest (ddmStep sq p ν s)
      omega

theorem stepLoopCount_pos (sq : ℚ → ℚ) (p : Params) (ν : ℚ) (rest : List ℚ)
    (s : SimState) : 1 ≤ stepLoopCount sq p (ν :: rest) s := by
  by_cases h : p.threshold ≤ |(ddmStep sq p ν s).evidence|
  · simp [stepLoopCount, h]
  · simp only [stepLoopCount, if_neg h]
    omega

theorem stepLoopCount_of_not_decided (sq : ℚ → ℚ) (p : Params) :
    ∀ (draws : List ℚ) (s : SimState),
      (stepLoop sq p draws s).decision_made = false →
      stepLoopCount sq p draws s = draws.length
  | [], s => by simp [stepLoopCount]
  | ν :: rest, s => by
    intro hnd
    by_cases h : p.threshold ≤ |(ddmStep sq p ν s).evidence|
    · exfalso
      rw [stepLoop, if_pos h] at hnd
      rw [ddmStep_decision_made_of_cross sq p ν s (by rwa [ddmStep_evidence] at h)] at hnd
      simp at hnd
    · rw [stepLoop, if_neg h] at hnd
      simp only [stepLoopCount, if_neg h, List.length_cons]
      rw [stepLoopCount_of_not_decided sq p rest (ddmStep sq p ν s) hnd]
      omega

theorem stepLoop_history_extends (sq : ℚ → ℚ) (p : Params) :
    ∀ (draws : List ℚ) (s : SimState),
      ∃ l, (stepLoop sq p draws s).evidence_history = s.evidence_history ++ l
  | [], s => ⟨[], by simp [stepLoop]⟩
  | ν :: rest, s => by
    by_cases h : p.threshold ≤ |(ddmStep sq p ν s).evidence|
    · exact ⟨[(ddmStep sq p ν s).evidence],
        by rw [stepLoop, if_pos h, ddmStep_evidence_history, ddmStep_evidence]⟩
    · obtain ⟨l, hl⟩ := stepLoop_history_extends sq p rest (ddmStep sq p ν s)
      refine ⟨stepEvidence sq p ν s :: l, ?_⟩
      rw [stepLoop, if_neg h, hl, ddmStep_evidence_history]
      simp

theorem update_simulation_of_active (sq : ℚ → ℚ) (p : Params) (draws : List ℚ)
    (s : SimState) (hd : s.decision_made = false) (hr : s.running = true) :
    update_simulation sq p draws s = stepLoop sq p draws s := by
  unfold update_simulation
  rw [if_pos ⟨hd, hr⟩]

theorem updateCount_of_active (sq : ℚ → ℚ) (p : Params) (draws : List ℚ)
    (s : SimState) (hd : s.decision_made = false) (hr : s.running = true) :
    updateCount sq p draws s = stepLoopCount sq p draws s := by
  unfold updateCount
  rw [if_pos ⟨hd, hr⟩]

/-! ### C7: what one invocation of the batch actually does -/

/-- C7 counterexample: with drift 3, threshold 0.1, zero noise and `dt = 0.05`,
the very first step of the batch crosses the boundary, so an invocation on an
undecided running state appends 1 element, not 5: the batch is cut short by
the `break`. -/
def pImm : Params := ⟨3, 1/10, 0, 0, 1/20⟩

theorem update_not_always_five_steps :
    ({ initState pImm with running := true } : SimState).decision_made = false ∧
    ({ initState pImm with running := true } : SimState).running = true ∧
    ([(0 : ℚ), 0, 0, 0, 0] : List ℚ).length = 5 ∧
    ({ initState pImm with running := true } : SimState).evidence_history.length = 1 ∧
    (update_simulation sq0 pImm [0, 0, 0, 0, 0]
        { initState pImm with running := true }).evidence_history.length = 2 := by
  refine ⟨rfl, rfl, rfl, rfl, ?_⟩
  norm_num [update_simulation, stepLoop, ddmStep, stepEvidence, initState, pImm, sq0,
    abs, max_def]

/-- C7 amended: one invocation of `update_simulation` on an undecided running
state executes between 1 and 5 of the batch's steps — exactly 5 whenever no
decision occurs during the batch, and otherwise stopping at the step whose
evidence crosses the threshold — and the history accumulates: the previous
evidence history is extended in place. -/
theorem update_batch_of_five (sq : ℚ → ℚ) (p : Params) (draws : List ℚ) (s : SimState)
    (h5 : draws.length = 5) (hd : s.decision_made = false) (hr : s.running = true) :
    (update_simulation sq p draws s).evidence_history.length
        = s.evidence_history.length + stepLoopCount sq p draws s ∧
    1 ≤ stepLoopCount sq p draws s ∧ stepLoopCount sq p draws s ≤ 5 ∧
    ((update_simulation sq p draws s).decision_made = false →
      stepLoopCount sq p draws s = 5) ∧
    ∃ l, (update_simulation sq p draws s).evidence_history
        = s.evidence_history ++ l := by
  rw [update_simulation_of_active sq p draws s hd hr]
  refine ⟨stepLoop_length sq p draws s, ?_, ?_, ?_, stepLoop_history_extends sq p draws s⟩
  · match draws, h5 with
    | ν :: rest, _ => exact stepLoopCount_pos sq p ν rest s
  · rw [← h5]
    exact stepLoopCount_le sq p draws s
  · intro hnd
    rw [← h5]
    exact stepLoopCount_of_not_decided sq p draws s hnd

theorem update_batch_of_five_witness :
    ([(0 : ℚ), 0, 0, 0, 0] : List ℚ).length = 5 ∧
    ({ initState wP with running := true } : SimState).decision_made = false ∧
    ({ initState wP with running := true } : SimState).running = true ∧
    ((update_simulation sq0 wP [0, 0, 0, 0, 0]
          { initState wP with running := true }).evidence_history.length
        = ({ initState wP with running := true } : SimState).evidence_history.length
            + stepLoopCount sq0 wP [0, 0, 0, 0, 0] { initState wP with running := true } ∧
      1 ≤ stepLoopCount sq0 wP [0, 0, 0, 0, 0] { initState wP with running := true } ∧
      stepLoopCount sq0 wP [0, 0, 0, 0, 0] { initState wP with running := true } ≤ 5 ∧
      ((update_simulation sq0 wP [0, 0, 0, 0, 0]
            { initState wP with running := true }).decision_made = false →
        stepLoopCount sq0 wP [0, 0, 0, 0, 0] { initState wP with running := true } = 5) ∧
      ∃ l, (update_simulation sq0 wP [0, 0, 0, 0, 0]
            { initState wP with running := true }).evidence_history
          = ({ initState wP with running := true } : SimState).evidence_history ++ l) :=
  ⟨rfl, rfl, rfl,
   update_batch_of_five sq0 wP [0, 0, 0, 0, 0] { initState wP with running := true }
     rfl rfl rfl⟩

/-! ### C3: step counting along app traces -/

theorem update_simulation_length (sq : ℚ → ℚ) (p : Params) (draws : List ℚ)
    (s : SimState) :
    (update_simulation sq p draws s).evidence_history.length
        = s.evidence_history.length + updateCount sq p draws s ∧
    (update_simulation sq p draws s).time_history.length
        = s.time_history.length + updateCount sq p draws s := by
  unfold update_simulation updateCount
  by_cases h : s.decision_made = false ∧ s.running = true
  · rw [if_pos h, if_pos h]
    exact ⟨stepLoop_length sq p draws s, stepLoop_time_length sq p draws s⟩
  · rw [if_neg h, if_neg h]
    simp

theorem foldl_history_length (sq : ℚ → ℚ) (p : Params) :
    ∀ (acts : List Action) (sc : SimState × ℕ),
      sc.1.evidence_history.length = sc.2 + 1 →
      sc.1.time_history.length = sc.2 + 1 →
      (acts.foldl (applyAction sq p) sc).1.evidence_history.length
          = (acts.foldl (applyAction sq p) sc).2 + 1 ∧
      (acts.foldl (applyAction sq p) sc).1.time_history.length
          = (acts.foldl (applyAction sq p) sc).2 + 1
  | [], sc => fun h1 h2 => ⟨h1, h2⟩
  | act :: rest, sc => fun h1 h2 => by
    rw [List.foldl_cons]
    match act with
    | Action.update draws =>
      apply foldl_history_length sq p rest
      · show (update_simulation sq p draws sc.1).evidence_history.length = _ + 1
        rw [(update_simulation_length sq p draws sc.1).1, h1]
        show _ = sc.2 + updateCount sq p draws sc.1 + 1
        omega
      · show (update_simulation sq p draws sc.1).time_history.length = _ + 1
        rw [(update_simulation_length sq p draws sc.1).2, h2]
        show _ = sc.2 + updateCount sq p draws sc.1 + 1
        omega
    | Action.setRunning b =>
      exact foldl_history_length sq p rest _ h1 h2
    | Action.reset =>
      exact foldl_history_length sq p rest _ rfl rfl

/-- C3: once `decided` is true the advance operation appends nothing (it
returns the state unchanged) and contributes zero steps; and along every
sequence of app actions from the initial state, the lengths of the history
lists equal the number of steps taken (since the last reset) plus one. -/
theorem decided_terminal_and_history_length (sq : ℚ → ℚ) (p : Params)
    (draws : List ℚ) (s : SimState) (acts : List Action)
    (hd : s.decision_made = true) :
    update_simulation sq p draws s = s ∧
    updateCount sq p draws s = 0 ∧
    (runTrace sq p acts).1.evidence_history.length = (runTrace sq p acts).2 + 1 ∧
    (runTrace sq p acts).1.time_history.length = (runTrace sq p acts).2 + 1 := by
  refine ⟨update_simulation_noop sq p draws s (Or.inr hd), ?_, ?_, ?_⟩
  · unfold updateCount
    rw [if_neg]
    rintro ⟨h1, _⟩
    rw [hd] at h1
    simp at h1
  · exact (foldl_history_length sq p acts (initState p, 0) rfl rfl).1
  · exact (foldl_history_length sq p acts (initState p, 0) rfl rfl).2

/-- Concrete already-decided state used by the C3 witness. -/
def sDec : SimState :=
  ⟨1/20, 5, [0, 5], [0, 1/20], true, true, some Boundary.Upper, some (1/20)⟩

theorem decided_terminal_witness :
    sDec.decision_made = true ∧
    (update_simulation sq0 wP [0, 0, 0, 0, 0] sDec = sDec ∧
      updateCount sq0 wP [0, 0, 0, 0, 0] sDec = 0 ∧
      (runTrace sq0 wP [Action.setRunning true,
          Action.update [0, 0, 0, 0, 0]]).1.evidence_history.length
        = (runTrace sq0 wP [Action.setRunning true, Action.update [0, 0, 0, 0, 0]]).2 + 1 ∧
      (runTrace sq0 wP [Action.setRunning true,
          Action.update [0, 0, 0, 0, 0]]).1.time_history.length
        = (runTrace sq0 wP [Action.setRunning true, Action.update [0, 0, 0, 0, 0]]).2 + 1) :=
  ⟨rfl, decided_terminal_and_history_length sq0 wP [0, 0, 0, 0, 0] sDec
    [Action.setRunning true, Action.update [0, 0, 0, 0, 0]] rfl⟩

/-! ### The time grid invariant (for C9) -/

/-- The arithmetic progression `0, dt, 2·dt, …, n·dt` that `time_history`
always equals. -/
def timeGrid (p : Params) (n : ℕ) : List ℚ :=
  (List.range (n + 1)).map (fun i : ℕ => (i : ℚ) * p.dt)

/-- The recorded times lie on the grid: `time = n·dt` and
`time_history = [0, dt, …, n·dt]` for the number `n` of steps so far. -/
def TimeInv (p : Params) (s : SimState) : Prop :=
  ∃ n : ℕ, s.time = (n : ℚ) * p.dt ∧ s.time_history = timeGrid p n

theorem timeGrid_succ (p : Params) (n : ℕ) :
    timeGrid p (n + 1) = timeGrid p n ++ [((n : ℚ) + 1) * p.dt] := by
  unfold timeGrid
  rw [List.range_succ, List.map_append, List.map_singleton, Nat.cast_succ]

theorem timeGrid_zero (p : Params) : timeGrid p 0 = [0] := by
  unfold timeGrid
  rw [show (0 + 1) = 1 from rfl, show List.range 1 = [0] from rfl,
    List.map_singleton, Nat.cast_zero, zero_mul]

theorem timeInv_init (p : Params) : TimeInv p (initState p) :=
  ⟨0, by simp [initState], by rw [timeGrid_zero]; rfl⟩

theorem timeInv_ddmStep (sq : ℚ → ℚ) (p : Params) (ν : ℚ) (s : SimState)
    (h : TimeInv p s) : TimeInv p (ddmStep sq p ν s) := by
  obtain ⟨n, ht, hh⟩ := h
  have harith : ((n : ℚ) + 1) * p.dt = (n : ℚ) * p.dt + p.dt := by ring
  refine ⟨n + 1, ?_, ?_⟩
  · rw [ddmStep_time, ht, Nat.cast_succ, harith]
  · rw [ddmStep_time_history, hh, ht, timeGrid_succ, harith]

theorem timeInv_stepLoop (sq : ℚ → ℚ) (p : Params) :
    ∀ (draws : List ℚ) (s : SimState), TimeInv p s → TimeInv p (stepLoop sq p draws s)
  | [], _s, h => h
  | ν :: rest, s, h => by
    rw [stepLoop]
    by_cases hc : p.threshold ≤ |(ddmStep sq p ν s).evidence|
    · rw [if_pos hc]
      exact timeInv_ddmStep sq p ν s h
    · rw [if_neg hc]
      exact timeInv_stepLoop sq p rest (ddmStep sq p ν s) (timeInv_ddmStep sq p ν s h)

theorem timeInv_update (sq : ℚ → ℚ) (p : Params) (draws : List ℚ) (s : SimState)
    (h : TimeInv p s) : TimeInv p (update_simulation sq p draws s) := by
  unfold update_simulation
  by_cases hg : s.decision_made = false ∧ s.running = true
  · rw [if_pos hg]
    exact timeInv_stepLoop sq p draws s h
  · rw [if_neg hg]
    exact h

theorem timeInv_reachable (sq : ℚ → ℚ) (p : Params) (s : SimState)
    (hr : Reachable sq p s) : TimeInv p s := by
  induction hr with
  | init => exact timeInv_init p
  | update draws _ ih => exact timeInv_update sq p draws _ ih
  | setRunning b _ ih => exact ih
  | reset _ _ => exact timeInv_init p

theorem timeGrid_getD (p : Params) (n i : ℕ) (h : i < n + 1) :
    (timeGrid p n).getD i 0 = (i : ℚ) * p.dt := by
  unfold timeGrid
  rw [List.getD_eq_getElem?_getD, List.getElem?_map, List.getElem?_range h]
  rfl

theorem timeGrid_length (p : Params) (n : ℕ) : (timeGrid p n).length = n + 1 := by
  rw [timeGrid, List.length_map, List.length_range]

/-! ### C9: times form an arithmetic progression with difference `dt` -/

/-- C9: in every reachable state the recorded times start at 0 and two
consecutive entries of `time_history` always differ by exactly `dt` — the
times form an arithmetic progression `0, dt, 2·dt, …` (exactly over `ℚ`; the
floating tolerance of the spec is not needed in exact arithmetic). -/
theorem time_history_progression (sq : ℚ → ℚ) (p : Params) (s : SimState)
    (hr : Reachable sq p s) :
    s.time_history.getD 0 0 = 0 ∧
    ∀ i : ℕ, i + 1 < s.time_history.length →
      s.time_history.getD (i + 1) 0 - s.time_history.getD i 0 = p.dt := by
  obtain ⟨n, _, hh⟩ := timeInv_reachable sq p s hr
  rw [hh]
  constructor
  · rw [timeGrid_getD p n 0 (Nat.succ_pos n)]
    simp
  · intro i hi
    rw [timeGrid_length] at hi
    rw [timeGrid_getD p n (i + 1) hi, timeGrid_getD p n i (Nat.lt_of_succ_lt hi)]
    push_cast
    ring

theorem time_history_progression_witness :
    (update_simulation sq0 wP [0, 0, 0, 0, 0]
        { initState wP with running := true }).time_history.getD 0 0 = 0 ∧
    ∀ i : ℕ, i + 1 < (update_simulation sq0 wP [0, 0, 0, 0, 0]
        { initState wP with running := true }).time_history.length →
      (update_simulation sq0 wP [0, 0, 0, 0, 0]
          { initState wP with running := true }).time_history.getD (i + 1) 0
        - (update_simulation sq0 wP [0, 0, 0, 0, 0]
            { initState wP with running := true }).time_history.getD i 0 = wP.dt :=
  time_history_progression sq0 wP _
    (Reachable.update [0, 0, 0, 0, 0] (Reachable.setRunning true Reachable.init))

/-! ### The boundary invariant (for C4) -/

/-- Relation between the decision flags and the evidence: the last recorded
evidence is the current one; undecided states are strictly inside the
boundaries with no boundary label; decided states have crossed, with the
label the decision check computed from the crossing value. -/
def BoundaryInv (p : Params) (s : SimState) : Prop :=
  s.evidence_history.getLast? = some s.evidence ∧
  (s.decision_made = false → |s.evidence| < p.threshold ∧ s.decision_boundary = none) ∧
  (s.decision_made = true → p.threshold ≤ |s.evidence| ∧
    s.decision_boundary
      = some (if p.threshold ≤ s.evidence then Boundary.Upper else Boundary.Lower))

theorem boundaryInv_init (p : Params) (hb : |p.bias| < p.threshold) :
    BoundaryInv p (initState p) := by
  refine ⟨rfl, fun _ => ⟨hb, rfl⟩, fun habs => ?_⟩
  simp [initState] at habs

theorem boundaryInv_ddmStep (sq : ℚ → ℚ) (p : Params) (ν : ℚ) (s : SimState)
    (h : BoundaryInv p s) (hu : s.decision_made = false) :
    BoundaryInv p (ddmStep sq p ν s) := by
  unfold ddmStep
  by_cases hc : p.threshold ≤ |stepEvidence sq p ν s|
  · rw [if_pos hc]
    refine ⟨List.getLast?_concat _, fun habs => ?_, fun _ => ⟨hc, rfl⟩⟩
    simp at habs
  · rw [if_neg hc]
    refine ⟨List.getLast?_concat _, fun _ => ⟨not_le.mp hc, (h.2.1 hu).2⟩, fun habs => ?_⟩
    have habs' : s.decision_made = true := habs
    rw [hu] at habs'
    simp at habs'

theorem boundaryInv_stepLoop (sq : ℚ → ℚ) (p : Params) :
    ∀ (draws : List ℚ) (s : SimState), BoundaryInv p s → s.decision_made = false →
      BoundaryInv p (stepLoop sq p draws s)
  | [], _s, h, _hu => h
  | ν :: rest, s, h, hu => by
    rw [stepLoop]
    by_cases hc : p.threshold ≤ |(ddmStep sq p ν s).evidence|
    · rw [if_pos hc]
      exact boundaryInv_ddmStep sq p ν s h hu
    · rw [if_neg hc]
      refine boundaryInv_stepLoop sq p rest (ddmStep sq p ν s)
        (boundaryInv_ddmStep sq p ν s h hu) ?_
      rw [ddmStep_evidence] at hc
      rw [ddmStep_decision_made_of_no_cross sq p ν s hc, hu]

theorem boundaryInv_update (sq : ℚ → ℚ) (p : Params) (draws : List ℚ) (s : SimState)
    (h : BoundaryInv p s) : BoundaryInv p (update_simulation sq p draws s) := by
  unfold update_simulation
  by_cases hg : s.decision_made = false ∧ s.running = true
  · rw [if_pos hg]
    exact boundaryInv_stepLoop sq p draws s h hg.1
  · rw [if_neg hg]
    exact h

theorem boundaryInv_reachable (sq : ℚ → ℚ) (p : Params) (s : SimState)
    (hb : |p.bias| < p.threshold) (hr : Reachable sq p s) : BoundaryInv p s := by
  induction hr with
  | init => exact boundaryInv_init p hb
  | update draws _ ih => exact boundaryInv_update sq p draws _ ih
  | setRunning b _ ih => exact ih
  | reset _ _ => exact boundaryInv_init p hb

/-! ### C4: decision flags agree with the last recorded evidence -/

/-- C4: in every state reachable from a valid initial state
(`|startingBias| < threshold`), `decided` holds exactly when the last recorded
evidence has magnitude at least `threshold`, and the boundary label is Upper
exactly when the last recorded evidence is at least `threshold`. -/
theorem bool_eq_false {b : Bool} (h : ¬ b = true) : b = false := by
  cases b
  · rfl
  · exact absurd rfl h

theorem decision_iff_last_evidence (sq : ℚ → ℚ) (p : Params) (s : SimState)
    (hb : |p.bias| < p.threshold) (hr : Reachable sq p s) :
    (s.decision_made = true ↔ p.threshold ≤ |s.evidence_history.getLastD 0|) ∧
    (s.decision_boundary = some Boundary.Upper ↔
      p.threshold ≤ s.evidence_history.getLastD 0) := by
  obtain ⟨hlast, hund, hdec⟩ := boundaryInv_reachable sq p s hb hr
  have hl : s.evidence_history.getLastD 0 = s.evidence := by
    rw [List.getLastD_eq_getLast?, hlast]
    rfl
  rw [hl]
  constructor
  · constructor
    · intro hd
      exact (hdec hd).1
    · intro habs
      by_cases hd : s.decision_made = true
      · exact hd
      · exact absurd habs (not_le.mpr (hund (bool_eq_false hd)).1)
  · constructor
    · intro hB
      by_cases hd : s.decision_made = true
      · have hEq := (hdec hd).2.symm.trans hB
        by_cases hc : p.threshold ≤ s.evidence
        · exact hc
        · rw [if_neg hc] at hEq
          exact absurd hEq (by decide)
      · rw [(hund (bool_eq_false hd)).2] at hB
        exact absurd hB (by decide)
    · intro he
      have hd : s.decision_made = true := by
        by_cases hd : s.decision_made = true
        · exact hd
        · exact absurd (lt_of_le_of_lt (he.trans (le_abs_self _))
            (hund (bool_eq_false hd)).1) (lt_irrefl _)
      rw [(hdec hd).2, if_pos he]

/-- Witness parameters for C4: drift 3, threshold 0.1, zero noise — the first
batch decides at the upper boundary. -/
theorem decision_iff_last_evidence_witness :
    |pImm.bias| < pImm.threshold ∧
    (((update_simulation sq0 pImm [0, 0, 0, 0, 0]
          { initState pImm with running := true }).decision_made = true ↔
        pImm.threshold ≤ |(update_simulation sq0 pImm [0, 0, 0, 0, 0]
          { initState pImm with running := true }).evidence_history.getLastD 0|) ∧
      ((update_simulation sq0 pImm [0, 0, 0, 0, 0]
          { initState pImm with running := true }).decision_boundary
            = some Boundary.Upper ↔
        pImm.threshold ≤ (update_simulation sq0 pImm [0, 0, 0, 0, 0]
          { initState pImm with running := true }).evidence_history.getLastD 0)) :=
  ⟨by norm_num [pImm, abs, max_def],
   decision_iff_last_evidence sq0 pImm _ (by norm_num [pImm, abs, max_def])
     (Reachable.update [0, 0, 0, 0, 0] (Reachable.setRunning true Reachable.init))⟩

/-! ### The zero-noise invariant (for C6) -/

theorem ddmStep_decision_time_of_cross (sq : ℚ → ℚ) (p : Params) (ν : ℚ) (s : SimState)
    (h : p.threshold ≤ |stepEvidence sq p ν s|) :
    (ddmStep sq p ν s).decision_time = some (s.time + p.dt) := by
  unfold ddmStep
  rw [if_pos h]

/-- With `noiseScale = 0` the trajectory is the deterministic ramp
`bias + driftRate · time`; if a decision has been made at time `(m+1)·dt`,
the state one step earlier (at time `m·dt`) was still strictly inside the
boundaries, and the recorded decision time is the current time. -/
def ZeroNoiseInv (p : Params) (s : SimState) : Prop :=
  s.evidence = p.bias + p.drift_rate * s.time ∧
  (s.decision_made = true → ∃ m : ℕ, s.time = ((m : ℚ) + 1) * p.dt ∧
    s.decision_time = some s.time ∧
    |p.bias + p.drift_rate * ((m : ℚ) * p.dt)| < p.threshold)

theorem zeroNoiseInv_init (p : Params) : ZeroNoiseInv p (initState p) := by
  constructor
  · show p.bias = p.bias + p.drift_rate * 0
    ring
  · intro habs
    simp [initState] at habs

theorem zeroNoiseInv_ddmStep (sq : ℚ → ℚ) (p : Params) (ν : ℚ) (s : SimState)
    (hns : p.noise_sd = 0) (h : ZeroNoiseInv p s) (hbi : BoundaryInv p s)
    (hti : TimeInv p s) (hu : s.decision_made = false) :
    ZeroNoiseInv p (ddmStep sq p ν s) := by
  have hev : stepEvidence sq p ν s = p.bias + p.drift_rate * (s.time + p.dt) := by
    unfold stepEvidence
    rw [h.1, hns]
    ring
  constructor
  · rw [ddmStep_evidence, ddmStep_time, hev]
  · intro hd'
    by_cases hc : p.threshold ≤ |stepEvidence sq p ν s|
    · obtain ⟨n, ht, _⟩ := hti
      refine ⟨n, ?_, ?_, ?_⟩
      · rw [ddmStep_time, ht]
        ring
      · rw [ddmStep_decision_time_of_cross sq p ν s hc, ddmStep_time]
      · have hin := (hbi.2.1 hu).1
        rw [h.1, ht] at hin
        exact hin
    · rw [ddmStep_decision_made_of_no_cross sq p ν s hc] at hd'
      rw [hd'] at hu
      exact Bool.noConfusion hu

theorem zeroNoiseInv_stepLoop (sq : ℚ → ℚ) (p : Params) (hns : p.noise_sd = 0) :
    ∀ (draws : List ℚ) (s : SimState), BoundaryInv p s → TimeInv p s →
      ZeroNoiseInv p s → s.decision_made = false →
      ZeroNoiseInv p (stepLoop sq p draws s)
  | [], _s, _hbi, _hti, h, _hu => h
  | ν :: rest, s, hbi, hti, h, hu => by
    rw [stepLoop]
    by_cases hc : p.threshold ≤ |(ddmStep sq p ν s).evidence|
    · rw [if_pos hc]
      exact zeroNoiseInv_ddmStep sq p ν s hns h hbi hti hu
    · rw [if_neg hc]
      rw [ddmStep_evidence] at hc
      refine zeroNoiseInv_stepLoop sq p hns rest (ddmStep sq p ν s)
        (boundaryInv_ddmStep sq p ν s hbi hu) (timeInv_ddmStep sq p ν s hti)
        (zeroNoiseInv_ddmStep sq p ν s hns h hbi hti hu) ?_
      rw [ddmStep_decision_made_of_no_cross sq p ν s hc, hu]

theorem zeroNoiseInv_update (sq : ℚ → ℚ) (p : Params) (draws : List ℚ) (s : SimState)
    (hns : p.noise_sd = 0) (hbi : BoundaryInv p s) (hti : TimeInv p s)
    (h : ZeroNoiseInv p s) : ZeroNoiseInv p (update_simulation sq p draws s) := by
  unfold update_simulation
  by_cases hg : s.decision_made = false ∧ s.running = true
  · rw [if_pos hg]
    exact zeroNoiseInv_stepLoop sq p hns draws s hbi hti h hg.1
  · rw [if_neg hg]
    exact h

theorem zeroNoiseInv_reachable (sq : ℚ → ℚ) (p : Params) (s : SimState)
    (hns : p.noise_sd = 0) (hb : |p.bias| < p.threshold) (hr : Reachable sq p s) :
    ZeroNoiseInv p s := by
  induction hr with
  | init => exact zeroNoiseInv_init p
  | update draws hs ih =>
    exact zeroNoiseInv_update sq p draws _ hns
      (boundaryInv_reachable sq p _ hb hs) (timeInv_reachable sq p _ hs) ih
  | setRunning b _ ih => exact ih
  | reset _ _ => exact zeroNoiseInv_init p

/-! ### C6: closed form under zero noise -/

/-- C6: with `noiseScale = 0` (and a valid initial state and positive `dt`),
every reachable state's evidence equals `startingBias + driftRate · currentTime`
exactly, and when a decision has been made, the recorded decision time is
within `timeStep` of the closed-form crossing time: for `driftRate > 0` of
`(threshold − startingBias) / driftRate`, and symmetrically for
`driftRate < 0` of `(−threshold − startingBias) / driftRate`. -/
theorem zero_noise_closed_form (sq : ℚ → ℚ) (p : Params) (s : SimState)
    (hns : p.noise_sd = 0) (hb : |p.bias| < p.threshold) (hdt : 0 < p.dt)
    (hr : Reachable sq p s) :
    s.evidence = p.bias + p.drift_rate * s.time ∧
    (0 < p.drift_rate → s.decision_made = true → ∀ t, s.decision_time = some t →
      |t - (p.threshold - p.bias) / p.drift_rate| ≤ p.dt) ∧
    (p.drift_rate < 0 → s.decision_made = true → ∀ t, s.decision_time = some t →
      |t - (-p.threshold - p.bias) / p.drift_rate| ≤ p.dt) := by
  have hzn := zeroNoiseInv_reachable sq p s hns hb hr
  have hbi := boundaryInv_reachable sq p s hb hr
  refine ⟨hzn.1, fun hdr hd t ht => ?_, fun hdr hd t ht => ?_⟩
  · obtain ⟨m, htm, hdtime, hpre⟩ := hzn.2 hd
    rw [hdtime] at ht
    have htt : t = s.time := (Option.some.inj ht).symm
    have hcross := (hbi.2.2 hd).1
    rw [hzn.1] at hcross
    have hstep : (m : ℚ) * p.dt = s.time - p.dt := by
      rw [htm]
      ring
    have hprebd := abs_lt.mp hpre
    rw [hstep] at hprebd
    have hupper : p.threshold ≤ p.bias + p.drift_rate * s.time := by
      rcases le_abs.mp hcross with hpos | hneg
      · exact hpos
      · exfalso
        have hdd : 0 < p.drift_rate * p.dt := mul_pos hdr hdt
        nlinarith [hprebd.1]
    have hT1 : (p.threshold - p.bias) / p.drift_rate ≤ s.time := by
      rw [div_le_iff₀ hdr, mul_comm]
      linarith
    have hT2 : s.time - p.dt < (p.threshold - p.bias) / p.drift_rate := by
      rw [lt_div_iff₀ hdr, mul_comm]
      nlinarith [hprebd.2]
    rw [htt, abs_le]
    exact ⟨by linarith, by linarith⟩
  · obtain ⟨m, htm, hdtime, hpre⟩ := hzn.2 hd
    rw [hdtime] at ht
    have htt : t = s.time := (Option.some.inj ht).symm
    have hcross := (hbi.2.2 hd).1
    rw [hzn.1] at hcross
    have hstep : (m : ℚ) * p.dt = s.time - p.dt := by
      rw [htm]
      ring
    have hprebd := abs_lt.mp hpre
    rw [hstep] at hprebd
    have hlower : p.bias + p.drift_rate * s.time ≤ -p.threshold := by
      rcases le_abs.mp hcross with hpos | hneg
      · exfalso
        have hdd : p.drift_rate * p.dt < 0 := mul_neg_of_neg_of_pos hdr hdt
        nlinarith [hprebd.2]
      · linarith
    have hT1 : (-p.threshold - p.bias) / p.drift_rate ≤ s.time := by
      rw [div_le_iff_of_neg hdr, mul_comm]
      linarith
    have hT2 : s.time - p.dt < (-p.threshold - p.bias) / p.drift_rate := by
      rw [lt_div_iff_of_neg hdr, mul_comm]
      nlinarith [hprebd.1]
    rw [htt, abs_le]
    exact ⟨by linarith, by linarith⟩

/-- Witness parameters for C6: drift 1, threshold 5/2, bias 0, zero noise,
`dt = 1`; the run decides at time 3 while the closed-form crossing time is
5/2: within the `dt` tolerance. -/
def pZn : Params := ⟨1, 5/2, 0, 0, 1⟩

theorem zero_noise_closed_form_witness :
    pZn.noise_sd = 0 ∧ |pZn.bias| < pZn.threshold ∧ 0 < pZn.dt ∧
    ((update_simulation sq0 pZn [0, 0, 0, 0, 0]
        { initState pZn with running := true }).evidence
      = pZn.bias + pZn.drift_rate
          * (update_simulation sq0 pZn [0, 0, 0, 0, 0]
              { initState pZn with running := true }).time ∧
    (0 < pZn.drift_rate →
      (update_simulation sq0 pZn [0, 0, 0, 0, 0]
          { initState pZn with running := true }).decision_made = true →
      ∀ t, (update_simulation sq0 pZn [0, 0, 0, 0, 0]
          { initState pZn with running := true }).decision_time = some t →
        |t - (pZn.threshold - pZn.bias) / pZn.drift_rate| ≤ pZn.dt) ∧
    (pZn.drift_rate < 0 →
      (update_simulation sq0 pZn [0, 0, 0, 0, 0]
          { initState pZn with running := true }).decision_made = true →
      ∀ t, (update_simulation sq0 pZn [0, 0, 0, 0, 0]
          { initState pZn with running := true }).decision_time = some t →
        |t - (-pZn.threshold - pZn.bias) / pZn.drift_rate| ≤ pZn.dt)) :=
  ⟨rfl, by norm_num [pZn, abs, max_def], by norm_num [pZn],
   zero_noise_closed_form sq0 pZn _ rfl  (by norm_num [pZn, abs, max_def])
     (by norm_num [pZn])
     (Reachable.update [0, 0, 0, 0, 0] (Reachable.setRunning true Reachable.init))⟩

/-! ### C5: batch-mode timeout behaviour -/

theorem runLoop_flat (sq : ℚ → ℚ) (p : Params) (maxTime : ℚ)
    (hdr : p.drift_rate = 0) (hns : p.noise_sd = 0) (hthr : 0 < p.threshold)
    (hdt : 0 < p.dt) :
    ∀ (fuel : ℕ) (nf : ℕ → ℚ) (s : SimState), s.evidence = 0 →
      s.decision_made = false →
      (⌈(maxTime - s.time) / p.dt⌉.toNat ≤ fuel) →
      (runLoop sq p nf maxTime fuel s).decision_made = false ∧
      (runLoop sq p nf maxTime fuel s).evidence_history.length
        = s.evidence_history.length + ⌈(maxTime - s.time) / p.dt⌉.toNat ∧
      maxTime ≤ (runLoop sq p nf maxTime fuel s).time
  | 0, nf, s => by
    intro he hd hfuel
    have hceil : ⌈(maxTime - s.time) / p.dt⌉ ≤ 0 := by
      rw [← Int.toNat_eq_zero]
      omega
    have hstop : maxTime ≤ s.time := by
      have h0 : (maxTime - s.time) / p.dt ≤ ((0 : ℤ) : ℚ) := Int.ceil_le.mp hceil
      rw [Int.cast_zero] at h0
      have h1 := (div_le_iff₀ hdt).mp h0
      rw [zero_mul] at h1
      linarith
    refine ⟨hd, ?_, hstop⟩
    rw [show (runLoop sq p nf maxTime 0 s) = s from rfl]
    omega
  | fuel + 1, nf, s => by
    intro he hd hfuel
    by_cases hstop : maxTime ≤ s.time
    · rw [runLoop, if_pos (Or.inr hstop)]
      have hceil : ⌈(maxTime - s.time) / p.dt⌉ ≤ 0 := by
        apply Int.ceil_le.mpr
        rw [Int.cast_zero]
        apply div_nonpos_of_nonpos_of_nonneg (by linarith) (le_of_lt hdt)
      refine ⟨hd, ?_, hstop⟩
      have : ⌈(maxTime - s.time) / p.dt⌉.toNat = 0 := Int.toNat_eq_zero.mpr hceil
      omega
    · push_neg at hstop
      rw [runLoop, if_neg ?hcond]
      case hcond =>
        rintro (habs | habs)
        · rw [hd] at habs
          exact Bool.noConfusion habs
        · exact absurd habs (not_le.mpr hstop)
      set s' := ddmStep sq p (nf 0) s with hs'
      have hev' : s'.evidence = 0 := by
        rw [hs', ddmStep_evidence]
        unfold stepEvidence
        rw [he, hdr, hns]
        ring
      have hnc : ¬ p.threshold ≤ |stepEvidence sq p (nf 0) s| := by
        have : stepEvidence sq p (nf 0) s = 0 := by
          unfold stepEvidence
          rw [he, hdr, hns]
          ring
        rw [this, abs_zero]
        exact not_le.mpr hthr
      have hd' : s'.decision_made = false := by
        rw [hs', ddmStep_decision_made_of_no_cross sq p (nf 0) s hnc, hd]
      have ht' : s'.time = s.time + p.dt := by
        rw [hs', ddmStep_time]
      have hlen' : s'.evidence_history.length = s.evidence_history.length + 1 := by
        rw [hs', ddmStep_evidence_history, List.length_append, List.length_singleton]
      have hposa : 0 < (maxTime - s.time) / p.dt := div_pos (by linarith) hdt
      have hceil1 : 1 ≤ ⌈(maxTime - s.time) / p.dt⌉ := Int.ceil_pos.mpr hposa
      have hshift : (maxTime - s'.time) / p.dt = (maxTime - s.time) / p.dt - 1 := by
        rw [ht']
        field_simp
        ring
      have hceil' : ⌈(maxTime - s'.time) / p.dt⌉ = ⌈(maxTime - s.time) / p.dt⌉ - 1 := by
        rw [hshift, Int.ceil_sub_one]
      have hrec := runLoop_flat sq p maxTime hdr hns hthr hdt fuel
        (fun n => nf (n + 1)) s' hev' hd' (by rw [hceil']; omega)
      refine ⟨hrec.1, ?_, hrec.2.2⟩
      rw [hrec.2.1, hlen', hceil']
      omega

/-- C5 amended: with zero drift, zero noise, zero bias, a positive threshold
and positive `dt`, batch mode never decides, stops with
`currentTime >= maxTime`, and its history spans exactly `⌈maxTime/timeStep⌉`
steps (`⌈maxTime/timeStep⌉ = ⌊maxTime/timeStep⌋` precisely when `maxTime` is an
integer multiple of `timeStep`; the loop condition `currentTime >= maxTime`
forces the rounding up, not down). -/
theorem runToCompletion_timeout (sq : ℚ → ℚ) (p : Params) (noise : ℕ → ℚ)
    (maxTime : ℚ) (hdr : p.drift_rate = 0) (hns : p.noise_sd = 0)
    (hbias : p.bias = 0) (hthr : 0 < p.threshold) (hdt : 0 < p.dt) :
    (runToCompletion sq p noise maxTime).decision_made = false ∧
    (runToCompletion sq p noise maxTime).evidence_history.length
      = ⌈maxTime / p.dt⌉.toNat + 1 ∧
    maxTime ≤ (runToCompletion sq p noise maxTime).time := by
  unfold runToCompletion
  have h := runLoop_flat sq p maxTime hdr hns hthr hdt
    (⌈maxTime / p.dt⌉.toNat + 1) noise (initState p)
    (by rw [show (initState p).evidence = p.bias from rfl, hbias])
    rfl
    (by rw [show (initState p).time = 0 from rfl, sub_zero]; omega)
  rw [show (initState p).time = 0 from rfl, sub_zero] at h
  refine ⟨h.1, ?_, h.2.2⟩
  rw [h.2.1]
  rw [show (initState p).evidence_history = [p.bias] from rfl]
  rw [List.length_singleton]
  omega

/-- C5 counterexample: zero drift, zero noise, zero bias, threshold 1,
`dt = 1/20`, `maxTime = 7/100` (not a multiple of `dt`).  The loop runs while
`currentTime < maxTime`, so it executes 2 steps (times `1/20` and `1/10`),
giving a history of 3 points; the claim's `floor(maxTime/timeStep) = 1` steps
would give 2 points. -/
def pTimeout : Params := ⟨0, 1, 0, 0, 1/20⟩

theorem runToCompletion_not_floor_steps :
    (runToCompletion sq0 pTimeout (fun _ => 0) (7/100)).decision_made = false ∧
    ⌊((7 : ℚ)/100) / ((1 : ℚ)/20)⌋.toNat = 1 ∧
    (runToCompletion sq0 pTimeout (fun _ => 0) (7/100)).evidence_history.length = 3 ∧
    (runToCompletion sq0 pTimeout
        (fun _ => 0) (7/100)).evidence_history.length ≠ ⌊((7 : ℚ)/100) / ((1 : ℚ)/20)⌋.toNat + 1 := by
  have hfloor : (⌊((7 : ℚ)/100) / ((1 : ℚ)/20)⌋ : ℤ) = 1 := by norm_num
  have hceil : (⌈((7 : ℚ)/100) / ((1 : ℚ)/20)⌉ : ℤ) = 2 := by
    rw [show ((7 : ℚ)/100) / ((1 : ℚ)/20) = 7/5 by norm_num, Int.ceil_eq_iff] <;> norm_num
  have hrun : (runToCompletion sq0 pTimeout (fun _ => 0) (7/100)).decision_made = false ∧
      (runToCompletion sq0 pTimeout (fun _ => 0) (7/100)).evidence_history.length = 3 := by
    constructor <;>
      norm_num [runToCompletion, runLoop, ddmStep, stepEvidence, initState, pTimeout, sq0,
        abs, max_def,
        show (⌈((7:ℚ)/100) / (1/20)⌉ : ℤ) = 2 from hceil,
        show (⌈(7:ℚ)/5⌉ : ℤ) = 2 from by
          rw [Int.ceil_eq_iff] <;> norm_num]
  refine ⟨hrun.1, by rw [hfloor]; rfl, hrun.2, ?_⟩
  rw [hrun.2, hfloor]
  simp

theorem runToCompletion_timeout_witness :
    pTimeout.drift_rate = 0 ∧ pTimeout.noise_sd = 0 ∧ pTimeout.bias = 0 ∧
    0 < pTimeout.threshold ∧ 0 < pTimeout.dt ∧
    ((runToCompletion sq0 pTimeout (fun _ => 0) (7/100)).decision_made = false ∧
      (runToCompletion sq0 pTimeout (fun _ => 0) (7/100)).evidence_history.length
        = ⌈(7/100 : ℚ) / pTimeout.dt⌉.toNat + 1 ∧
      (7/100 : ℚ) ≤ (runToCompletion sq0 pTimeout (fun _ => 0) (7/100)).time) :=
  ⟨rfl, rfl, rfl, by norm_num [pTimeout], by norm_num [pTimeout],
   runToCompletion_timeout sq0 pTimeout (fun _ => 0) (7/100) rfl rfl rfl
     (by norm_num [pTimeout]) (by norm_num [pTimeout])⟩

/-! ### C8: construction-time validation -/

/-- C8 amended: the slider ranges guarantee `threshold ≥ 1/2 > 0`,
`noiseScale ≥ 1/10 ≥ 0` and `timeStep = 1/20 > 0` for every selection, and
construction is a total function — it never raises any error. -/
theorem setup_params_ranges (drift thr b noise : ℚ) :
    0 < (setup_params drift thr b noise).threshold ∧
    0 < (setup_params drift thr b noise).dt ∧
    0 ≤ (setup_params drift thr b noise).noise_sd ∧
    (setup_params drift thr b noise).dt = 1/20 := by
  refine ⟨lt_of_lt_of_le (by norm_num) (le_max_left _ _), by norm_num [setup_params], ?_, rfl⟩
  exact le_trans (by norm_num) (le_max_left _ _)

/-- C8 counterexample: the selections threshold = 1/2 and bias = 2 are both
within their slider ranges; construction accepts them and returns a parameter
set with `|startingBias| ≥ threshold` — no `InvalidParameters` error exists in
the code, and nothing is raised. -/
theorem setup_params_accepts_invalid_bias :
    setup_params (3/2) (1/2) 2 1 = ⟨3/2, 1/2, 2, 1, 1/20⟩ ∧
    (setup_params (3/2) (1/2) 2 1).threshold ≤ |(setup_params (3/2) (1/2) 2 1).bias| := by
  have h : setup_params (3/2) (1/2) 2 1 = ⟨3/2, 1/2, 2, 1, 1/20⟩ := by
    norm_num [setup_params, sliderVal, Params.mk.injEq, max_def, min_def]
  refine ⟨h, ?_⟩
  rw [h]
  norm_num [abs, max_def]

end DDM
